import Mathlib

/-!
Verification of the pybricksdev hub communication protocol engine.

This file gives a shallow embedding of the relevant parts of
`pybricksdev/connections.py` and `pybricksdev/compile.py`:

* `CharacterGlue.data_handler` (line framing buffer),
* `PybricksPUPProtocol` (checksum-gated `send_message`),
* `PybricksHub` (`nus_handler`, `pybricks_service_handler`,
  `send_block`, `line_handler`, the transfer part of `run`),
* `compile_file`.

Bytes are modelled as natural numbers, byte strings as `List Nat`,
asynchronous device replies as explicit `Option` scenario parameters,
and Python exceptions as explicit error values.
-/

namespace Pybricks

/-- Decidable equality for `Except`, needed so the interaction-outcome
records can be evaluated with `decide`. -/
instance exceptDecEq {ε α : Type} [DecidableEq ε] [DecidableEq α] :
    DecidableEq (Except ε α) := fun x y =>
  match x, y with
  | .ok a, .ok b =>
    if h : a = b then isTrue (by rw [h]) else isFalse fun hh => h (Except.ok.inj hh)
  | .ok _, .error _ => isFalse fun hh => Except.noConfusion hh
  | .error _, .ok _ => isFalse fun hh => Except.noConfusion hh
  | .error e, .error f =>
    if h : e = f then isTrue (by rw [h]) else isFalse fun hh => h (Except.error.inj hh)

/-- Modelled from the spec: `xor_bytes` (pybricksdev.tools.checksum, not under
src/) is the XOR fold of all bytes of `data` starting from the seed `start`. -/
def xor_bytes (data : List Nat) (start : Nat) : Nat :=
  data.foldl Nat.xor start

/-- Little-endian 4-byte encoding, as produced by
`len(mpy).to_bytes(4, byteorder="little")` for values below 2^32. -/
def toLE4 (n : Nat) : List Nat :=
  [n % 256, n / 256 % 256, n / 256 ^ 2 % 256, n / 256 ^ 3 % 256]

/-- Little-endian 4-byte decoding, as done by `struct.unpack("<I", ...)`. -/
def fromLE4 : List Nat → Nat
  | [a, b, c, d] => a + 256 * b + 256 ^ 2 * c + 256 ^ 3 * d
  | _ => 0

/-- First index at which `pat` occurs as a contiguous block of `buf`,
the semantics of Python `bytes.find`, with `none` standing for `-1`. -/
def findSub (pat : List Nat) : List Nat → Option Nat
  | [] => if pat = [] then some 0 else none
  | b :: rest =>
    if (b :: rest).take pat.length = pat then some 0
    else (findSub pat rest).map (· + 1)

/-- The line extraction loop of `CharacterGlue.data_handler`: repeatedly find
the end-of-line marker, cut the line in front of it out of the buffer and
drop the marker.  `fuel` bounds the number of iterations; every caller
passes at least the buffer length, which suffices for a nonempty marker. -/
def drainLines (eol : List Nat) : Nat → List Nat → List (List Nat) × List Nat
  | 0, buf => ([], buf)
  | fuel + 1, buf =>
    match findSub eol buf with
    | none => ([], buf)
    | some i =>
      let p := drainLines eol fuel (buf.drop (i + eol.length))
      (buf.take i :: p.1, p.2)

/-- The state of `CharacterGlue`: the configured end-of-line marker
(`None` meaning no line splitting) and the receive buffer `char_buf`. -/
structure Glue where
  EOL : Option (List Nat)
  char_buf : List Nat
  deriving Repr, DecidableEq

/-- One call of `CharacterGlue.data_handler` with the base-class
`char_handler`, which passes every byte through into the buffer.  Returns
the new state together with the lines handed to `line_handler`, in order. -/
def data_handler (g : Glue) (data : List Nat) : Glue × List (List Nat) :=
  let buf := g.char_buf ++ data
  match g.EOL with
  | none => ({ g with char_buf := buf }, [])
  | some e =>
    let p := drainLines e buf.length buf
    ({ g with char_buf := p.2 }, p.1)

/-- Feed a list of fragments one `data_handler` call at a time, collecting
all delivered lines in order. -/
def feedAll (g : Glue) : List (List Nat) → Glue × List (List Nat)
  | [] => (g, [])
  | d :: ds =>
    let p := data_handler g d
    let q := feedAll p.1 ds
    (q.1, p.2 ++ q.2)

/-- A Python `io.BytesIO`: an underlying byte string plus a stream position.
Both `write` and `read` start at the position and advance it. -/
structure BytesBuffer where
  buf : List Nat
  pos : Nat
  deriving Repr, DecidableEq

/-- `BytesIO.write`: overwrite at the current position, advance it. -/
def BytesBuffer.write (b : BytesBuffer) (data : List Nat) : BytesBuffer :=
  { buf := b.buf.take b.pos ++ data ++ b.buf.drop (b.pos + data.length),
    pos := b.pos + data.length }

/-- `BytesIO.read()` with no argument: everything from the current position
to the end of the stream, leaving the position at the end. -/
def BytesBuffer.read (b : BytesBuffer) : List Nat × BytesBuffer :=
  (b.buf.drop b.pos, { b with pos := b.buf.length })

/-- The mutable fields of `PybricksHub` that the embedded methods touch,
plus observable sinks: `stdout` records the bytes written to
`sys.stdout.buffer`, `log_name`/`log_lines` record the opened log file and
the lines printed into it, `printed` the lines `line_handler` printed. -/
structure HubState where
  expected_checksum : Int
  checksum_ready : Bool
  loading : Bool
  program_running : Bool
  user_program_stopped : Bool
  buffered_stdout : BytesBuffer
  stdout : List Nat
  log_open : Bool
  log_name : Option (List Nat)
  log_lines : List (List Nat)
  output : List (List Nat)
  printed : List (List Nat)
  print_output : Bool
  deriving Repr, DecidableEq

/-- The field values set by `PybricksHub.__init__`. -/
def initHub : HubState :=
  { expected_checksum := -1
    checksum_ready := false
    loading := false
    program_running := false
    user_program_stopped := false
    buffered_stdout := ⟨[], 0⟩
    stdout := []
    log_open := false
    log_name := none
    log_lines := []
    output := []
    printed := []
    print_output := true }

/-- Exceptions that `PybricksHub.nus_handler` can raise inside the
notification callback. -/
inductive NusErr where
  | indexError
  | checksumMismatch (expected : Int) (got : Nat)
  deriving Repr, DecidableEq

/-- `PybricksHub.nus_handler`: while a checksum is expected, the first byte
of the notification is the checksum (a mismatch raises, a match disarms the
slot and signals readiness) and the handler returns; otherwise the data goes
to the stdout buffer while loading, else to the real stdout. -/
def nus_handler (s : HubState) (data : List Nat) : HubState × Option NusErr :=
  if s.expected_checksum ≠ -1 then
    match data with
    | [] => (s, some .indexError)
    | c :: _ =>
      if (c : Int) ≠ s.expected_checksum then
        (s, some (.checksumMismatch s.expected_checksum c))
      else
        ({ s with expected_checksum := -1, checksum_ready := true }, none)
  else if s.loading then
    ({ s with buffered_stdout := s.buffered_stdout.write data }, none)
  else
    ({ s with stdout := s.stdout ++ data }, none)

/-- Modelled from the spec: the value of `Event.STATUS_REPORT`
(pybricksdev.ble.pybricks, not under src/), the header byte identifying a
status-report notification. -/
def EventStatusReport : Nat := 0

/-- Modelled from the spec: the value of `Status.USER_PROGRAM_RUNNING.flag`
(pybricksdev.ble.pybricks, not under src/), the bit of the 4-byte
little-endian status bitmask indicating that the user program runs. -/
def userProgramRunningFlag : Nat := 2 ^ 6

/-- `PybricksHub.pybricks_service_handler`: decode a status report; unless
loading, a change of the running flag updates `program_running` and flushes
the buffered stdout, and a non-running report signals program stop.  `none`
models a raised exception (`data[0]` on empty data, or `struct.unpack`
applied to a payload that is not exactly 4 bytes). -/
def pybricks_service_handler (s : HubState) (data : List Nat) : Option HubState :=
  match data with
  | [] => none
  | b :: rest =>
    if b = EventStatusReport then
      if rest.length = 4 then
        let flags := fromLE4 rest
        let program_running_now : Bool := decide (flags &&& userProgramRunningFlag ≠ 0)
        if !s.loading then
          let s1 :=
            if s.program_running != program_running_now then
              let p := s.buffered_stdout.read
              { s with program_running := program_running_now,
                       stdout := s.stdout ++ p.1,
                       buffered_stdout := p.2 }
            else s
          some (if !program_running_now then { s1 with user_program_stopped := true } else s1)
        else some s
      else none
    else some s

/-- The ASCII bytes of the log-open sentinel `b"PB_OF"`. -/
def PB_OF : List Nat := [80, 66, 95, 79, 70]

/-- The ASCII bytes of the log-close sentinel `b"PB_EOF"`. -/
def PB_EOF : List Nat := [80, 66, 95, 69, 79, 70]

/-- Python `pat in line` for byte strings: `pat` occurs somewhere in `line`. -/
def containsSub (pat l : List Nat) : Bool := (findSub pat l).isSome

/-- Exceptions raised by `PybricksHub.line_handler` on sentinel misuse. -/
inductive LineErr where
  | logAlreadyOpen
  | noLogOpen
  deriving Repr, DecidableEq

/-- `PybricksHub.line_handler`: a line containing `PB_OF` opens the log file
named by `line[6:]` (the path resolution and directory creation of the real
file system are abstracted into recording that name), a line containing
`PB_EOF` closes it, any other line goes to the open log file if any, else to
the output history and, if enabled, the terminal. -/
def line_handler (s : HubState) (line : List Nat) : HubState × Option LineErr :=
  if containsSub PB_OF line then
    if s.log_open then (s, some .logAlreadyOpen)
    else ({ s with log_open := true, log_name := some (line.drop 6) }, none)
  else if containsSub PB_EOF line then
    if !s.log_open then (s, some .noLogOpen)
    else ({ s with log_open := false }, none)
  else if s.log_open then
    ({ s with log_lines := s.log_lines ++ [line] }, none)
  else
    ({ s with output := s.output ++ [line],
              printed := if s.print_output then s.printed ++ [line] else s.printed },
     none)

/-- Ordinary-data routing of one line, written after the spec's words for
the output/log demultiplexer: a non-sentinel line is appended to the open
log file if one is open, otherwise appended to the output history and, when
printing is enabled for this run, written to the terminal. -/
def routesAsData (s : HubState) (line : List Nat) : HubState :=
  if s.log_open then { s with log_lines := s.log_lines ++ [line] }
  else
    { s with output := s.output ++ [line],
             printed := if s.print_output then s.printed ++ [line] else s.printed }

/-- Modelled from the spec: the device-kind enumeration (pybricksdev.ble,
not under src/) reduced to what `send_block` inspects, namely whether the
hub is the constrained-MTU BOOST Move hub. -/
inductive HubKind where
  | boost
  | other
  deriving Repr, DecidableEq

/-- The chunking pattern `[data[i : i + n] for i in range(0, len(data), n)]`. -/
def chunksOf (n : Nat) (l : List Nat) : List (List Nat) :=
  (List.range ((l.length + n - 1) / n)).map fun i => (l.drop (i * n)).take n

/-- The error with which `send_block` itself can fail:
`asyncio.TimeoutError` from the 0.5-second checksum wait. -/
inductive SBErr where
  | ackTimeout
  deriving Repr, DecidableEq

/-- Outcome of one `send_block` interaction: the final hub state, the
sequence of channel writes performed, the exception (if any) raised inside
the notification handler processing the reply, and the result delivered to
the awaiting caller. -/
structure SBResult where
  state : HubState
  writes : List (List Nat)
  handlerErr : Option NusErr
  result : Except SBErr Unit
  deriving Repr, DecidableEq

/-- `PybricksHub.send_block` interacting with one device-reply scenario:
`reply = none` means no notification arrives within the 0.5-second timeout,
`reply = some r` means the notification `r` is delivered to `nus_handler`
during the wait.  The `except` clause resets `expected_checksum` to `-1`
whenever the wait fails. -/
def send_block (kind : HubKind) (s : HubState) (data : List Nat)
    (reply : Option (List Nat)) : SBResult :=
  let s1 := { s with checksum_ready := false,
                     expected_checksum := ((xor_bytes data 0 : Nat) : Int) }
  let writes := if kind = HubKind.boost then chunksOf 20 data else [data]
  match reply with
  | none => ⟨{ s1 with expected_checksum := -1 }, writes, none, .error .ackTimeout⟩
  | some r =>
    let p := nus_handler s1 r
    if p.1.checksum_ready then ⟨p.1, writes, p.2, .ok ()⟩
    else ⟨{ p.1 with expected_checksum := -1 }, writes, p.2, .error .ackTimeout⟩

/-- The block sequence sent by the transfer part of `PybricksHub.run`: the
4-byte little-endian payload length, then the payload in 100-byte chunks. -/
def run_blocks (mpy : List Nat) : List (List Nat) :=
  toLE4 mpy.length :: chunksOf 100 mpy

/-- Outcome of a whole transfer: final state, all channel writes in order,
and the caller-visible result. -/
structure TransferResult where
  state : HubState
  writes : List (List Nat)
  result : Except SBErr Unit
  deriving Repr, DecidableEq

/-- Send blocks strictly sequentially via `send_block`, consuming one reply
scenario per block and stopping at the first failure. -/
def sendBlocks (kind : HubKind) : HubState → List (List Nat) → List (Option (List Nat)) → TransferResult
  | s, [], _ => ⟨s, [], .ok ()⟩
  | s, b :: bs, replies =>
    let rep := match replies with
      | [] => none
      | r :: _ => r
    let r := send_block kind s b rep
    match r.result with
    | .error e => ⟨r.state, r.writes, .error e⟩
    | .ok _ =>
      let rest := sendBlocks kind r.state bs replies.tail
      ⟨rest.state, r.writes ++ rest.writes, rest.result⟩

/-- The reply scenario in which the device acknowledges every block with a
single byte equal to the XOR fold of that block. -/
def correctAcks (blocks : List (List Nat)) : List (Option (List Nat)) :=
  blocks.map fun b => some [xor_bytes b 0]

/-- The transfer part of `PybricksHub.run` (the `try`/`finally` around the
block loop): set `loading`, clear the stopped event, send the length block
and the chunks, and clear `loading` again on every exit path. -/
def run_transfer (kind : HubKind) (s : HubState) (mpy : List Nat)
    (replies : List (Option (List Nat))) : TransferResult :=
  let s1 := { s with loading := true, user_program_stopped := false }
  let r := sendBlocks kind s1 (run_blocks mpy) replies
  ⟨{ r.state with loading := false }, r.writes, r.result⟩

/-- The state constant `PybricksPUPProtocol.UNKNOWN`. -/
def UNKNOWN : Nat := 0

/-- The state constant `PybricksPUPProtocol.IDLE`. -/
def IDLE : Nat := 1

/-- The state constant `PybricksPUPProtocol.RUNNING`. -/
def RUNNING : Nat := 2

/-- The state constant `PybricksPUPProtocol.AWAITING_CHECKSUM`. -/
def AWAITING_CHECKSUM : Nat := 4

/-- The mutable fields of `PybricksPUPProtocol` used by the checksum
handshake and the inherited line framing. -/
structure PUPState where
  state : Nat
  checksum : Option Nat
  checksum_ready : Bool
  char_buf : List Nat
  deriving Repr, DecidableEq

/-- The field values set by `PybricksPUPProtocol.__init__`. -/
def initPUP : PUPState :=
  { state := UNKNOWN, checksum := none, checksum_ready := false, char_buf := [] }

namespace PUP

/-- `PybricksPUPProtocol.char_handler`: while awaiting a checksum, steal the
byte (store it, signal readiness, append nothing); otherwise pass it
through to the buffer. -/
def char_handler (s : PUPState) (c : Nat) : PUPState × Option Nat :=
  if s.state = AWAITING_CHECKSUM then
    ({ s with checksum := some c, checksum_ready := true }, none)
  else (s, some c)

/-- The per-byte loop of `CharacterGlue.data_handler` with the overriding
`char_handler` of `PybricksPUPProtocol`. -/
def feed_chars (s : PUPState) (data : List Nat) : PUPState :=
  data.foldl
    (fun acc c =>
      let p := char_handler acc c
      match p.2 with
      | none => p.1
      | some b => { p.1 with char_buf := p.1.char_buf ++ [b] })
    s

/-- `CharacterGlue.data_handler` as inherited by `PybricksPUPProtocol`:
per-byte processing, then line extraction with `EOL = b"\r\n"`. -/
def data_handler (s : PUPState) (data : List Nat) : PUPState × List (List Nat) :=
  let s1 := feed_chars s data
  let p := drainLines [13, 10] s1.char_buf.length s1.char_buf
  ({ s1 with char_buf := p.2 }, p.1)

/-- `PybricksPUPProtocol.set_state`. -/
def set_state (s : PUPState) (new_state : Nat) : PUPState :=
  if new_state ≠ s.state then { s with state := new_state } else s

/-- `PybricksPUPProtocol.prepare_checksum`: enter `AWAITING_CHECKSUM`,
forget any stored checksum, clear the readiness event. -/
def prepare_checksum (s : PUPState) : PUPState :=
  { set_state s AWAITING_CHECKSUM with checksum := none, checksum_ready := false }

end PUP

/-- The errors `PybricksPUPProtocol.send_message` can raise to its caller:
the length guard, the 0.5-second ack timeout, and the checksum comparison
(a `ValueError` carrying the expected and received values). -/
inductive SMErr where
  | tooLong
  | ackTimeout
  | checksumMismatch (expected got : Nat)
  deriving Repr, DecidableEq

/-- Outcome of one `send_message` interaction: final protocol state, channel
writes, lines delivered while processing the reply, and the result. -/
structure SMResult where
  state : PUPState
  writes : List (List Nat)
  lines : List (List Nat)
  result : Except SMErr Unit
  deriving Repr, DecidableEq

/-- `PybricksPUPProtocol.send_message` interacting with one device-reply
scenario (`none`: nothing arrives before the timeout; `some r`: the packet
`r` is delivered through `data_handler` during the wait), including the
`wait_for_checksum` epilogue that re-arms the slot and returns to `IDLE`
when the readiness event fired. -/
def send_message (s : PUPState) (data : List Nat) (reply : Option (List Nat)) : SMResult :=
  if data.length > 100 then ⟨s, [], [], .error .tooLong⟩
  else
    let checksum := xor_bytes data 0
    let s1 := PUP.prepare_checksum s
    let p := match reply with
      | none => (s1, [])
      | some r => PUP.data_handler s1 r
    if p.1.checksum_ready then
      -- char_handler stores a byte whenever it sets the readiness event,
      -- so the default value of the unwrap is unreachable
      let got := p.1.checksum.getD 0
      let s2 := PUP.set_state (PUP.prepare_checksum p.1) IDLE
      if checksum ≠ got then
        ⟨s2, [data], p.2, .error (.checksumMismatch checksum got)⟩
      else ⟨s2, [data], p.2, .ok ()⟩
    else ⟨p.1, [data], p.2, .error .ackTimeout⟩

/-- The errors of the compile step: a call omitting the required `abi`
argument, the rejected ABI version, and a failure of the `mpy-cross`
subprocess. -/
inductive CompileErr where
  | typeErrorMissingAbi
  | unsupportedAbi (abi : Nat)
  | compileError
  deriving Repr, DecidableEq

/-- Declared default of the `abi` parameter in the signature
`compile_file(path: str, abi: int, compile_args=None)`: there is none. -/
def compile_file_abi_default : Option Nat := none

/-- `compile_file`: with `abi = 5` it runs `mpy-cross` (whose outcome is the
opaque `result` parameter), any other `abi` raises
`ValueError("mpy_version must be 5")`. -/
def compile_file (abi : Nat) (result : Except Unit (List Nat)) : Except CompileErr (List Nat) :=
  if abi = 5 then
    match result with
    | .ok mpy => .ok mpy
    | .error _ => .error .compileError
  else .error (.unsupportedAbi abi)

/-- The call `compile_file(py_path)` exactly as written in
`PybricksHub.run` and `PybricksPUPProtocol.run`: the `abi` argument is
omitted, so Python substitutes the declared default if the signature has
one and raises `TypeError` otherwise. -/
def run_compile_call (result : Except Unit (List Nat)) : Except CompileErr (List Nat) :=
  match compile_file_abi_default with
  | none => .error .typeErrorMissingAbi
  | some a => compile_file a result

/-- Caller-visible outcome of `PybricksHub.run` up to the end of the
transfer phase. -/
inductive RunErr where
  | compileFailed (e : CompileErr)
  | ackTimeout
  deriving Repr, DecidableEq

/-- Outcome of `hub_run`: final state, all channel writes, result. -/
structure RunResult where
  state : HubState
  writes : List (List Nat)
  result : Except RunErr Unit
  deriving Repr, DecidableEq

/-- `PybricksHub.run` up to the end of the transfer phase: reset the log
and output fields, compile (via the call as written), and only on compile
success start the checksum-gated transfer. -/
def hub_run (kind : HubKind) (s : HubState) (compileResult : Except Unit (List Nat))
    (replies : List (Option (List Nat))) : RunResult :=
  let s0 := { s with log_open := false, output := [] }
  match run_compile_call compileResult with
  | .error e => ⟨s0, [], .error (.compileFailed e)⟩
  | .ok mpy =>
    let r := run_transfer kind s0 mpy replies
    ⟨r.state, r.writes,
     match r.result with
     | .ok _ => .ok ()
     | .error _ => .error .ackTimeout⟩

/-- A status-report notification whose bitmask has exactly the
user-program-running bit set. -/
def statusRunning : List Nat := EventStatusReport :: toLE4 userProgramRunningFlag

/-- A line in which `PB_EOF` occurs, but only from position 2 on, never at
the start: the bytes of `"a PB_EOF"`. -/
def lineWithLatePBEOF : List Nat := [97, 32] ++ PB_EOF

lemma findSub_nil_pat : ∀ l : List Nat, findSub [] l = some 0
  | [] => by simp [findSub]
  | _ :: _ => by simp [findSub]

lemma findSub_some_le (pat : List Nat) :
    ∀ (buf : List Nat) (i : Nat), findSub pat buf = some i →
      i + pat.length ≤ buf.length := by
  intro buf
  induction buf with
  | nil =>
    intro i h
    unfold findSub at h
    split at h
    · next hp => cases h; simp [hp]
    · cases h
  | cons b rest ih =>
    intro i h
    unfold findSub at h
    split at h
    · next hp =>
      cases h
      have hlen := congrArg List.length hp
      simp only [List.length_take, List.length_cons] at hlen
      simp only [List.length_cons]
      omega
    · next hp =>
      cases hr : findSub pat rest with
      | none => rw [hr] at h; cases h
      | some j =>
        rw [hr] at h
        simp only [Option.map_some'] at h
        cases h
        have := ih j hr
        simp only [List.length_cons]
        omega

lemma findSub_some_match (pat : List Nat) :
    ∀ (buf : List Nat) (i : Nat), findSub pat buf = some i →
      (buf.drop i).take pat.length = pat := by
  intro buf
  induction buf with
  | nil =>
    intro i h
    unfold findSub at h
    split at h
    · next hp => cases h; simp [hp]
    · cases h
  | cons b rest ih =>
    intro i h
    unfold findSub at h
    split at h
    · next hp => cases h; simpa using hp
    · next hp =>
      cases hr : findSub pat rest with
      | none => rw [hr] at h; cases h
      | some j =>
        rw [hr] at h
        simp only [Option.map_some'] at h
        cases h
        simpa using ih j hr

lemma findSub_none_no_match (pat : List Nat) :
    ∀ (buf : List Nat), findSub pat buf = none →
      ∀ j, (buf.drop j).take pat.length ≠ pat := by
  intro buf
  induction buf with
  | nil =>
    intro h j
    unfold findSub at h
    split at h
    · cases h
    · next hp =>
      simp only [List.drop_nil, List.take_nil]
      exact fun hc => hp hc.symm
  | cons b rest ih =>
    intro h j
    unfold findSub at h
    split at h
    · cases h
    · next hp =>
      cases hr : findSub pat rest with
      | some j2 => rw [hr] at h; simp at h
      | none =>
        cases j with
        | zero => simpa using hp
        | succ k => simpa using ih hr k

lemma findSub_first (pat : List Nat) :
    ∀ (buf : List Nat) (i : Nat), findSub pat buf = some i →
      ∀ j, j < i → (buf.drop j).take pat.length ≠ pat := by
  intro buf
  induction buf with
  | nil =>
    intro i h j hj
    unfold findSub at h
    split at h
    · cases h; omega
    · cases h
  | cons b rest ih =>
    intro i h j hj
    unfold findSub at h
    split at h
    · cases h; omega
    · next hp =>
      cases hr : findSub pat rest with
      | none => rw [hr] at h; cases h
      | some j2 =>
        rw [hr] at h
        simp only [Option.map_some'] at h
        cases h
        cases j with
        | zero => simpa using hp
        | succ k =>
          have hk : k < j2 := by omega
          simpa using ih j2 hr k hk

lemma findSub_append (pat : List Nat) :
    ∀ (buf d : List Nat) (i : Nat), findSub pat buf = some i →
      findSub pat (buf ++ d) = some i := by
  intro buf
  induction buf with
  | nil =>
    intro d i h
    unfold findSub at h
    split at h
    · next hp => cases h; subst hp; simpa using findSub_nil_pat d
    · cases h
  | cons b rest ih =>
    intro d i h
    have hle := findSub_some_le pat (b :: rest) i h
    simp only [List.length_cons] at hle
    unfold findSub at h
    split at h
    · next hp =>
      cases h
      have hcond : ((b :: rest) ++ d).take pat.length = pat := by
        rw [List.take_append_of_le_length (by simp only [List.length_cons]; omega)]
        exact hp
      simp only [List.cons_append] at hcond ⊢
      unfold findSub
      rw [if_pos hcond]
    · next hp =>
      cases hr : findSub pat rest with
      | none => rw [hr] at h; simp at h
      | some j =>
        rw [hr] at h
        simp only [Option.map_some'] at h
        cases h
        have hrle := findSub_some_le pat rest j hr
        have hcond : ¬ ((b :: (rest ++ d)).take pat.length = pat) := by
          intro hc
          apply hp
          rw [← List.cons_append] at hc
          rw [List.take_append_of_le_length (by simp only [List.length_cons]; omega)] at hc
          exact hc
        simp only [List.cons_append]
        unfold findSub
        rw [if_neg hcond, ih d j hr]
        rfl

lemma drainLines_none (e : List Nat) (buf : List Nat) (h : findSub e buf = none) :
    ∀ fuel, drainLines e fuel buf = ([], buf) := by
  intro fuel
  cases fuel with
  | zero => rfl
  | succ k => simp [drainLines, h]

lemma drainLines_fuel (e : List Nat) (he : e ≠ []) :
    ∀ (fuel : Nat) (buf : List Nat), buf.length ≤ fuel →
      drainLines e fuel buf = drainLines e buf.length buf := by
  intro fuel
  induction fuel using Nat.strong_induction_on with
  | _ fuel ih =>
    intro buf hbuf
    cases fuel with
    | zero =>
      have hb : buf = [] := List.eq_nil_of_length_eq_zero (by omega)
      subst hb; rfl
    | succ k =>
      cases hfind : findSub e buf with
      | none => rw [drainLines_none e buf hfind, drainLines_none e buf hfind]
      | some i =>
        have hle := findSub_some_le e buf i hfind
        have hepos : 0 < e.length := List.length_pos.mpr he
        obtain ⟨m, hm⟩ : ∃ m, buf.length = m + 1 := ⟨buf.length - 1, by omega⟩
        have hrlen : (buf.drop (i + e.length)).length = buf.length - (i + e.length) :=
          List.length_drop _ _
        have h1 : drainLines e k (buf.drop (i + e.length)) =
            drainLines e (buf.drop (i + e.length)).length (buf.drop (i + e.length)) :=
          ih k (by omega) _ (by omega)
        have h2 : drainLines e m (buf.drop (i + e.length)) =
            drainLines e (buf.drop (i + e.length)).length (buf.drop (i + e.length)) :=
          ih m (by omega) _ (by omega)
        rw [hm]
        simp only [drainLines, hfind]
        rw [h1, h2]

lemma drainLines_residue (e : List Nat) (he : e ≠ []) :
    ∀ (fuel : Nat) (buf : List Nat), buf.length ≤ fuel →
      findSub e (drainLines e fuel buf).2 = none := by
  intro fuel
  induction fuel using Nat.strong_induction_on with
  | _ fuel ih =>
    intro buf hbuf
    cases fuel with
    | zero =>
      have hb : buf = [] := List.eq_nil_of_length_eq_zero (by omega)
      subst hb
      simp [drainLines, findSub, he]
    | succ k =>
      cases hfind : findSub e buf with
      | none => rw [drainLines_none e buf hfind]; exact hfind
      | some i =>
        have hle := findSub_some_le e buf i hfind
        have hepos : 0 < e.length := List.length_pos.mpr he
        have hrlen : (buf.drop (i + e.length)).length = buf.length - (i + e.length) :=
          List.length_drop _ _
        simp only [drainLines, hfind]
        exact ih k (by omega) _ (by omega)

lemma drainLines_append (e : List Nat) (he : e ≠ []) (d : List Nat) :
    ∀ (buf : List Nat),
      drainLines e (buf ++ d).length (buf ++ d) =
        ((drainLines e buf.length buf).1
           ++ (drainLines e ((drainLines e buf.length buf).2 ++ d).length
                ((drainLines e buf.length buf).2 ++ d)).1,
         (drainLines e ((drainLines e buf.length buf).2 ++ d).length
            ((drainLines e buf.length buf).2 ++ d)).2) := by
  suffices main : ∀ (n : Nat) (buf : List Nat), buf.length = n →
      drainLines e (buf ++ d).length (buf ++ d) =
        ((drainLines e buf.length buf).1
           ++ (drainLines e ((drainLines e buf.length buf).2 ++ d).length
                ((drainLines e buf.length buf).2 ++ d)).1,
         (drainLines e ((drainLines e buf.length buf).2 ++ d).length
            ((drainLines e buf.length buf).2 ++ d)).2) by
    exact fun buf => main buf.length buf rfl
  intro n
  induction n using Nat.strong_induction_on with
  | _ n ih =>
    intro buf hn
    cases hfind : findSub e buf with
    | none =>
      rw [drainLines_none e buf hfind]
      simp
    | some i =>
      have hle := findSub_some_le e buf i hfind
      have hepos : 0 < e.length := List.length_pos.mpr he
      have hfind2 := findSub_append e buf d i hfind
      obtain ⟨m, hm⟩ : ∃ m, buf.length = m + 1 := ⟨buf.length - 1, by omega⟩
      have hdrop : (buf ++ d).drop (i + e.length) = buf.drop (i + e.length) ++ d :=
        List.drop_append_of_le_length (by omega)
      have htake : (buf ++ d).take i = buf.take i :=
        List.take_append_of_le_length (by omega)
      have hrlen : (buf.drop (i + e.length)).length = buf.length - (i + e.length) :=
        List.length_drop _ _
      have hlen1 : (buf ++ d).length = (m + d.length) + 1 := by
        simp only [List.length_append, hm]; omega
      -- the left-hand side, one extraction step on `buf ++ d`
      rw [hlen1]
      simp only [drainLines, hfind2, hdrop, htake]
      -- canonical fuel for the recursive call on the left
      rw [drainLines_fuel e he (m + d.length) (buf.drop (i + e.length) ++ d)
            (by simp only [List.length_append]; omega)]
      -- the right-hand side, one extraction step on `buf`
      rw [hm]
      simp only [drainLines, hfind]
      rw [drainLines_fuel e he m (buf.drop (i + e.length)) (by omega)]
      -- apply the induction hypothesis to the remainder
      rw [ih (buf.drop (i + e.length)).length (by omega) (buf.drop (i + e.length)) rfl]
      simp

lemma data_handler_noEOL (buf d : List Nat) :
    data_handler ⟨none, buf⟩ d = (⟨none, buf ++ d⟩, []) := rfl

lemma feedAll_noEOL_lines : ∀ (frags : List (List Nat)) (buf : List Nat),
    (feedAll ⟨none, buf⟩ frags).2 = [] := by
  intro frags
  induction frags with
  | nil => intro buf; rfl
  | cons dfrag ds ih =>
    intro buf
    simp only [feedAll, data_handler_noEOL]
    simpa using ih (buf ++ dfrag)

lemma feedAll_eq_concat (e : List Nat) (he : e ≠ []) :
    ∀ (frags : List (List Nat)) (buf : List Nat), findSub e buf = none →
      feedAll ⟨some e, buf⟩ frags = data_handler ⟨some e, buf⟩ frags.flatten := by
  intro frags
  induction frags with
  | nil =>
    intro buf hres
    simp [feedAll, data_handler, drainLines_none e buf hres]
  | cons dfrag ds ih =>
    intro buf hres
    have hres1 : findSub e (drainLines e (buf ++ dfrag).length (buf ++ dfrag)).2 = none :=
      drainLines_residue e he _ _ le_rfl
    simp only [feedAll, data_handler, List.flatten_cons]
    rw [ih _ hres1]
    simp only [data_handler]
    rw [← List.append_assoc]
    rw [drainLines_append e he ds.flatten (buf ++ dfrag)]


/-- C5 (confirmed): for every byte sequence and every way of splitting it
into fragments, feeding the fragments one at a time to the line framing
buffer (`data_handler`) yields the same final buffer state and the same
ordered sequence of complete lines, each delivered exactly once, as feeding
the whole concatenation in a single call; and when no end-of-line marker is
configured, no line is ever extracted. -/
theorem claim_C5 :
    (∀ (e : List Nat), e ≠ [] → ∀ (frags : List (List Nat)),
        feedAll ⟨some e, []⟩ frags = data_handler ⟨some e, []⟩ frags.flatten)
  ∧ (∀ (frags : List (List Nat)), (feedAll ⟨none, []⟩ frags).2 = []
        ∧ (data_handler ⟨none, []⟩ frags.flatten).2 = []) := by
  constructor
  · intro e he frags
    exact feedAll_eq_concat e he frags [] (by simp [findSub, he])
  · intro frags
    exact ⟨feedAll_noEOL_lines frags [], rfl⟩

/-- Witness for C5: the invariance theorem applied to the `\r\n` marker of
the hub protocol and a fragmentation that splits the marker itself. -/
theorem claim_C5_witness :
    feedAll ⟨some [13, 10], []⟩ [[104, 13], [10, 105]]
      = data_handler ⟨some [13, 10], []⟩ [104, 13, 10, 105] :=
  claim_C5.1 [13, 10] (by decide) [[104, 13], [10, 105]]

/-- C10 (confirmed): in `PybricksHub.nus_handler`, whenever a checksum is
pending (`expected_checksum` is not `-1`) and a notification arrives, only
the first byte of the notification is interpreted as the checksum and every
remaining byte of the same packet is discarded — not buffered, not printed,
not treated as a second checksum; and whenever the call leaves the
readiness event set, the resulting state has the slot disarmed. -/
theorem claim_C10 (s : HubState) (b : Nat) (rest : List Nat)
    (h : s.expected_checksum ≠ -1) :
    nus_handler s (b :: rest) = nus_handler s [b]
  ∧ (nus_handler s (b :: rest)).1.buffered_stdout = s.buffered_stdout
  ∧ (nus_handler s (b :: rest)).1.stdout = s.stdout
  ∧ ((b : Int) = s.expected_checksum →
      (nus_handler s (b :: rest)).1
        = { s with expected_checksum := -1, checksum_ready := true })
  ∧ ((nus_handler s (b :: rest)).1.checksum_ready = true →
      s.checksum_ready = true ∨ (nus_handler s (b :: rest)).1.expected_checksum = -1) := by
  simp only [nus_handler, if_pos h]
  by_cases hb : (b : Int) = s.expected_checksum
  · simp [hb]
  · simp only [hb, if_neg, ne_eq, not_false_eq_true, if_true]
    simp [hb]
    exact fun hh => Or.inl hh

/-- Witness for C10 at a pending checksum of 5 and the packet `[5, 9]`. -/
theorem claim_C10_witness :
    nus_handler { initHub with expected_checksum := 5 } [5, 9]
      = nus_handler { initHub with expected_checksum := 5 } [5]
  ∧ (nus_handler { initHub with expected_checksum := 5 } [5, 9]).1
      = { { initHub with expected_checksum := 5 } with
          expected_checksum := -1, checksum_ready := true } :=
  ⟨(claim_C10 { initHub with expected_checksum := 5 } 5 [9] (by decide)).1,
   (claim_C10 { initHub with expected_checksum := 5 } 5 [9] (by decide)).2.2.2.1 (by decide)⟩

/-- C2 counterexample: a running-status notification delivered while
`loading` is true leaves the hub state completely unchanged — the decoded
value is recorded nowhere — and when loading ends (the `finally` clause
clears `loading`) the state equals the pristine initial state, with
`program_running` still `false`: the suppressed transition is not replayed
at the end of loading, contrary to the claim. -/
theorem claim_C2_counterexample :
    pybricks_service_handler { initHub with loading := true } statusRunning
      = some { initHub with loading := true }
  ∧ ({ { initHub with loading := true } with loading := false } : HubState) = initHub
  ∧ initHub.program_running = false := by decide

/-- C2 (amended): while `loading` is true a status notification is ignored
entirely — no observable transition fires and the decoded value is not
recorded — and ending loading performs no re-evaluation; the suppressed
transition becomes visible only when the next status notification arrives
after loading has ended. -/
theorem claim_C2_amended :
    (∀ (s : HubState) (data : List Nat) (t : HubState), s.loading = true →
        pybricks_service_handler s data = some t → t = s)
  ∧ (∀ s : HubState, s.loading = false → s.program_running = false →
        (pybricks_service_handler s statusRunning).map (·.program_running)
          = some true) := by
  constructor
  · intro s data t hl h
    cases data with
    | nil => simp [pybricks_service_handler] at h
    | cons b rest =>
      simp only [pybricks_service_handler] at h
      by_cases hb : b = EventStatusReport
      · by_cases h4 : rest.length = 4
        · simp [hb, h4, hl] at h
          exact h.symm
        · simp [hb, h4] at h
      · simp [hb] at h
        exact h.symm
  · intro s hl hr
    have hbit : (decide (fromLE4 (toLE4 userProgramRunningFlag)
        &&& userProgramRunningFlag ≠ 0)) = true := by decide
    have hlen4 : (toLE4 userProgramRunningFlag).length = 4 := by decide
    simp [pybricks_service_handler, statusRunning, EventStatusReport, hl, hr, hbit, hlen4]

/-- Witness for C2 (amended part two) at the initial hub state. -/
theorem claim_C2_amended_witness :
    initHub.loading = false ∧ initHub.program_running = false
  ∧ (pybricks_service_handler initHub statusRunning).map (·.program_running)
      = some true :=
  ⟨rfl, rfl, claim_C2_amended.2 initHub rfl rfl⟩

/-- C3: concrete evaluation of the stdout-buffering path.  The byte `65`
delivered while loading is written into `_buffered_stdout`, leaving the
stream position at the end; the first status transition after loading ends
calls `read()` there, which returns nothing, so the terminal receives no
byte even though the transition fires — the buffered output is lost
instead of being released, contradicting the code's own comment that the
buffered data "is output now". -/
theorem claim_C3_code_bug :
    (nus_handler { initHub with loading := true } [65]).1.buffered_stdout = ⟨[65], 1⟩
  ∧ (pybricks_service_handler
        { (nus_handler { initHub with loading := true } [65]).1 with loading := false }
        statusRunning).map (·.stdout) = some []
  ∧ (pybricks_service_handler
        { (nus_handler { initHub with loading := true } [65]).1 with loading := false }
        statusRunning).map (·.program_running) = some true := by decide

/-- C9: concrete evaluation of the compile step as called by `run`.  The
signature of `compile_file` declares no default for `abi`, so the in-repo
call `compile_file(py_path)` raises `TypeError` before compiling and `run`
performs no channel write; an explicit `abi` other than 5 is rejected, and
a compiler failure likewise surfaces before any transport write. -/
theorem claim_C9_code_bug :
    compile_file_abi_default = none
  ∧ hub_run HubKind.other initHub (.ok [1, 2, 3]) []
      = ⟨initHub, [], .error (.compileFailed .typeErrorMissingAbi)⟩
  ∧ compile_file 4 (.ok [1, 2, 3]) = .error (.unsupportedAbi 4)
  ∧ compile_file 5 (.error ()) = .error .compileError := by decide

/-- C7 counterexample: in the line `"a PB_EOF"` the sentinel token occurs
only from position 2 on, not at the start, yet `line_handler` treats the
line as a log-close command (raising, since no log is open) instead of
routing it as ordinary data as the claim requires. -/
theorem claim_C7_counterexample :
    findSub PB_OF lineWithLatePBEOF = none
  ∧ findSub PB_EOF lineWithLatePBEOF = some 2
  ∧ line_handler initHub lineWithLatePBEOF = (initHub, some .noLogOpen)
  ∧ routesAsData initHub lineWithLatePBEOF
      = { initHub with output := [lineWithLatePBEOF],
                       printed := [lineWithLatePBEOF] } := by decide

/-- C7 (amended): a line is treated as a log-open or log-close sentinel
command if and only if the token occurs as a substring anywhere in the
line (`PB_OF` checked first); exactly the token-free lines are routed as
ordinary data to the open log file, the output history, or the terminal. -/
theorem claim_C7_amended (s : HubState) (line : List Nat) :
    line_handler s line = (routesAsData s line, none)
      ↔ containsSub PB_OF line = false ∧ containsSub PB_EOF line = false := by
  constructor
  · intro h
    by_cases h1 : containsSub PB_OF line
    · exfalso
      simp only [line_handler, h1, if_true] at h
      by_cases h2 : s.log_open
      · simp [h2] at h
      · simp only [h2, if_false] at h
        have hlo := congrArg (fun p => p.1.log_open) h
        simp [routesAsData, h2] at hlo
    · by_cases h2 : containsSub PB_EOF line
      · exfalso
        simp only [line_handler, h1, h2, if_true, if_false, Bool.false_eq_true] at h
        by_cases h3 : s.log_open
        · simp only [h3, Bool.not_true, if_false] at h
          have hlo := congrArg (fun p => p.1.log_open) h
          simp [routesAsData, h3] at hlo
        · simp [h3] at h
      · exact ⟨by simpa using h1, by simpa using h2⟩
  · intro hc
    simp only [line_handler, routesAsData, hc.1, hc.2, Bool.false_eq_true, if_false]
    split <;> rfl

lemma prepare_checksum_eq (s : PUPState) :
    PUP.prepare_checksum s = ⟨AWAITING_CHECKSUM, none, false, s.char_buf⟩ := by
  unfold PUP.prepare_checksum PUP.set_state
  split
  · rfl
  · next hns =>
    have hst : s.state = AWAITING_CHECKSUM := by omega
    cases s
    simp_all

lemma send_message_tooLong (s : PUPState) (data : List Nat)
    (reply : Option (List Nat)) (hlen : 100 < data.length) :
    send_message s data reply = ⟨s, [], [], .error .tooLong⟩ := by
  unfold send_message
  rw [if_pos hlen]

lemma send_message_timeout (s : PUPState) (data : List Nat) (hlen : data.length ≤ 100) :
    send_message s data none =
      ⟨⟨AWAITING_CHECKSUM, none, false, s.char_buf⟩, [data], [], .error .ackTimeout⟩ := by
  unfold send_message
  rw [if_neg (by omega)]
  simp [prepare_checksum_eq]

lemma send_message_single (s : PUPState) (data : List Nat) (b : Nat)
    (hlen : data.length ≤ 100) :
    send_message s data (some [b]) =
      ⟨⟨IDLE, none, false, (drainLines [13, 10] s.char_buf.length s.char_buf).2⟩,
       [data],
       (drainLines [13, 10] s.char_buf.length s.char_buf).1,
       if xor_bytes data 0 ≠ b then .error (.checksumMismatch (xor_bytes data 0) b)
       else .ok ()⟩ := by
  unfold send_message
  rw [if_neg (by omega)]
  simp only [prepare_checksum_eq, PUP.data_handler, PUP.feed_chars, List.foldl_cons,
             List.foldl_nil, PUP.char_handler]
  simp [PUP.set_state, prepare_checksum_eq, AWAITING_CHECKSUM, IDLE]
  split <;> simp_all

lemma send_block_timeout (kind : HubKind) (s : HubState) (data : List Nat) :
    send_block kind s data none =
      ⟨{ s with checksum_ready := false, expected_checksum := -1 },
       if kind = HubKind.boost then chunksOf 20 data else [data],
       none, .error .ackTimeout⟩ := rfl

lemma send_block_reply_single (kind : HubKind) (s : HubState) (data : List Nat) (b : Nat) :
    send_block kind s data (some [b]) =
      if b = xor_bytes data 0 then
        ⟨{ s with checksum_ready := true, expected_checksum := -1 },
         if kind = HubKind.boost then chunksOf 20 data else [data], none, .ok ()⟩
      else
        ⟨{ s with checksum_ready := false, expected_checksum := -1 },
         if kind = HubKind.boost then chunksOf 20 data else [data],
         some (.checksumMismatch ((xor_bytes data 0 : Nat) : Int) b),
         .error .ackTimeout⟩ := by
  have hne : ((xor_bytes data 0 : Nat) : Int) ≠ -1 := by omega
  unfold send_block nus_handler
  by_cases hb : b = xor_bytes data 0
  · subst hb
    simp [hne]
  · have hbi : (b : Int) ≠ ((xor_bytes data 0 : Nat) : Int) := by
      exact_mod_cast hb
    simp [hne, hbi, hb]

lemma send_block_writes (kind : HubKind) (s : HubState) (data : List Nat)
    (reply : Option (List Nat)) :
    (send_block kind s data reply).writes
      = if kind = HubKind.boost then chunksOf 20 data else [data] := by
  unfold send_block
  cases reply with
  | none => rfl
  | some r =>
    simp only []
    split <;> rfl

/-- C1 counterexample: a 101-byte payload handed to `PybricksHub.send_block`
is not rejected — the whole oversized payload is written to the channel
before the ack wait — contrary to the claim that a payload longer than 100
bytes is rejected before anything is written. -/
theorem claim_C1_counterexample :
    100 < (List.replicate 101 1).length
  ∧ (send_block HubKind.other initHub (List.replicate 101 1) none).writes
      = [List.replicate 101 1] := by decide

/-- C1 (amended): for `PybricksPUPProtocol.send_message` with
`len(data) ≤ 100` the call succeeds iff the device's single reply byte is
the XOR fold of `data` from 0; a different byte fails the call with the
mismatch error carrying the expected and received values, no reply fails it
with the ack timeout, and an over-long payload is rejected before anything
is written.  `PybricksHub.send_block` has no length guard — every payload
is written — and there a mismatching reply byte raises the mismatch error
inside the notification handler while the call itself fails with the ack
timeout; a matching single byte succeeds and no reply times out. -/
theorem claim_C1_amended (s : PUPState) (h : HubState) (data : List Nat) (b : Nat) :
    (data.length ≤ 100 →
        (((send_message s data (some [b])).result = .ok ()) ↔ b = xor_bytes data 0))
  ∧ (data.length ≤ 100 → b ≠ xor_bytes data 0 →
        (send_message s data (some [b])).result
          = .error (.checksumMismatch (xor_bytes data 0) b))
  ∧ (data.length ≤ 100 →
        (send_message s data none).result = .error .ackTimeout)
  ∧ (100 < data.length → ∀ reply,
        send_message s data reply = ⟨s, [], [], .error .tooLong⟩)
  ∧ (((send_block HubKind.other h data (some [b])).result = .ok ())
        ↔ b = xor_bytes data 0)
  ∧ (b ≠ xor_bytes data 0 →
        (send_block HubKind.other h data (some [b])).handlerErr
          = some (.checksumMismatch ((xor_bytes data 0 : Nat) : Int) b)
      ∧ (send_block HubKind.other h data (some [b])).result = .error .ackTimeout)
  ∧ ((send_block HubKind.other h data none).result = .error .ackTimeout)
  ∧ (∀ reply, (send_block HubKind.other h data reply).writes = [data]) := by
  refine ⟨?_, ?_, ?_, ?_, ?_, ?_, ?_, ?_⟩
  · intro hlen
    rw [send_message_single s data b hlen]
    by_cases hx : xor_bytes data 0 = b
    · subst hx; simp
    · have hbr : b ≠ xor_bytes data 0 := fun hc => hx hc.symm
      simp [hx, hbr]
  · intro hlen hb
    rw [send_message_single s data b hlen]
    have hx : xor_bytes data 0 ≠ b := fun hc => hb hc.symm
    simp [hx]
  · intro hlen
    rw [send_message_timeout s data hlen]
  · intro hlen reply
    exact send_message_tooLong s data reply hlen
  · rw [send_block_reply_single HubKind.other h data b]
    by_cases hb : b = xor_bytes data 0
    · simp [hb]
    · simp [hb]
  · intro hb
    rw [send_block_reply_single HubKind.other h data b]
    simp [hb]
  · rw [send_block_timeout HubKind.other h data]
  · intro reply
    rw [send_block_writes HubKind.other h data reply]
    simp

/-- Witness for C1 (amended) at the payload `[1, 2, 3]`, whose XOR fold is
0: success on reply 0, caller-visible mismatch on reply 7 for
`send_message`, ack timeout on reply 7 for `send_block`. -/
theorem claim_C1_witness :
    (send_message initPUP [1, 2, 3] (some [0])).result = .ok ()
  ∧ (send_message initPUP [1, 2, 3] (some [7])).result
      = .error (.checksumMismatch 0 7)
  ∧ (send_block HubKind.other initHub [1, 2, 3] (some [7])).result
      = .error .ackTimeout :=
  ⟨((claim_C1_amended initPUP initHub [1, 2, 3] 0).1 (by decide)).mpr (by decide),
   (claim_C1_amended initPUP initHub [1, 2, 3] 7).2.1 (by decide) (by decide),
   ((claim_C1_amended initPUP initHub [1, 2, 3] 7).2.2.2.2.2.1 (by decide)).2⟩

/-- C6 counterexample: when `send_message` times out waiting for the ack,
the error propagates with the protocol still in `AWAITING_CHECKSUM` — the
slot is left armed, so the next incoming byte will be stolen as a stale
checksum — contrary to the claim that every failure path of a block send
disarms the slot before the error propagates. -/
theorem claim_C6_counterexample :
    (send_message initPUP [1, 2, 3] none).result = .error .ackTimeout
  ∧ (send_message initPUP [1, 2, 3] none).state.state = AWAITING_CHECKSUM
  ∧ IDLE ≠ AWAITING_CHECKSUM := by decide

/-- C6 (amended): `PybricksHub.send_block` disarms the checksum slot
(`expected_checksum = -1`) on every failure path before the error reaches
the caller, and `send_message` returns to `IDLE` with a cleared slot when
the checksum comparison fails; but on an ack timeout `send_message`
propagates with the protocol still in `AWAITING_CHECKSUM`. -/
theorem claim_C6_amended :
    (∀ (kind : HubKind) (s : HubState) (data : List Nat)
        (reply : Option (List Nat)) (e : SBErr),
        (send_block kind s data reply).result = .error e →
          (send_block kind s data reply).state.expected_checksum = -1)
  ∧ (∀ (s : PUPState) (data : List Nat) (b : Nat), data.length ≤ 100 →
        b ≠ xor_bytes data 0 →
          (send_message s data (some [b])).state.state = IDLE
        ∧ (send_message s data (some [b])).state.checksum_ready = false
        ∧ (send_message s data (some [b])).state.checksum = none)
  ∧ (∀ (s : PUPState) (data : List Nat), data.length ≤ 100 →
        (send_message s data none).state.state = AWAITING_CHECKSUM) := by
  refine ⟨?_, ?_, ?_⟩
  · intro kind s data reply e hres
    cases reply with
    | none => simp [send_block]
    | some r =>
      simp only [send_block] at hres ⊢
      split at hres
      · next hcond => simp at hres
      · next hcond => simp [hcond]
  · intro s data b hlen hb
    rw [send_message_single s data b hlen]
    exact ⟨rfl, rfl, rfl⟩
  · intro s data hlen
    rw [send_message_timeout s data hlen]

/-- Witness for C6 (amended): a timed-out `send_block` ends disarmed, a
mismatching `send_message` ends in `IDLE`, a timed-out `send_message` stays
in `AWAITING_CHECKSUM`. -/
theorem claim_C6_witness :
    (send_block HubKind.other initHub [1, 2] none).state.expected_checksum = -1
  ∧ (send_message initPUP [1, 2] (some [9])).state.state = IDLE
  ∧ (send_message initPUP [9] none).state.state = AWAITING_CHECKSUM :=
  ⟨claim_C6_amended.1 HubKind.other initHub [1, 2] none .ackTimeout (by decide),
   (claim_C6_amended.2.1 initPUP [1, 2] 9 (by decide) (by decide)).1,
   claim_C6_amended.2.2 initPUP [9] (by decide)⟩

lemma chunksOf_nil (n : Nat) : chunksOf n [] = [] := by
  unfold chunksOf
  cases n with
  | zero => rfl
  | succ k =>
    have h1 : (List.length ([] : List Nat) + (k + 1) - 1) = k := by simp
    simp [h1, Nat.div_eq_of_lt (Nat.lt_succ_self k)]

lemma chunksOf_cons (n : Nat) (l : List Nat) (hl : l ≠ []) :
    chunksOf (n + 1) l = l.take (n + 1) :: chunksOf (n + 1) (l.drop (n + 1)) := by
  have hL : 1 ≤ l.length := List.length_pos.mpr hl
  unfold chunksOf
  have hcount : (l.length + (n + 1) - 1) / (n + 1) = (l.length - 1) / (n + 1) + 1 := by
    have h2 : l.length + (n + 1) - 1 = (l.length - 1) + (n + 1) := by omega
    rw [h2, Nat.add_div_right _ (Nat.succ_pos n)]
  have hcount2 : ((l.drop (n + 1)).length + (n + 1) - 1) / (n + 1)
      = (l.length - 1) / (n + 1) := by
    rw [List.length_drop]
    by_cases hc : l.length ≤ n + 1
    · have h3 : l.length - (n + 1) = 0 := by omega
      have h4 : l.length - (n + 1) + (n + 1) - 1 = n := by omega
      rw [h4, Nat.div_eq_of_lt (Nat.lt_succ_self n)]
      exact (Nat.div_eq_of_lt (by omega)).symm
    · have h3 : l.length - (n + 1) + (n + 1) - 1 = l.length - 1 := by omega
      rw [h3]
  rw [hcount, hcount2, List.range_succ_eq_map]
  simp only [List.map_cons, List.map_map, Nat.zero_mul, List.drop_zero]
  congr 1
  apply List.map_congr_left
  intro i _
  simp only [Function.comp_apply]
  have hmul : (Nat.succ i) * (n + 1) = (n + 1) + i * (n + 1) := by
    rw [Nat.succ_mul, Nat.add_comm]
  rw [hmul, List.drop_drop]

lemma chunksOf_flatten (n : Nat) (l : List Nat) :
    (chunksOf (n + 1) l).flatten = l := by
  suffices main : ∀ (N : Nat) (l : List Nat), l.length = N →
      (chunksOf (n + 1) l).flatten = l by
    exact main l.length l rfl
  intro N
  induction N using Nat.strong_induction_on with
  | _ N ih =>
    intro l hN
    cases l with
    | nil => simp [chunksOf_nil]
    | cons x xs =>
      rw [chunksOf_cons n (x :: xs) (by simp), List.flatten_cons]
      rw [ih ((x :: xs).drop (n + 1)).length
            (by simp only [List.length_drop]; simp only [List.length_cons] at hN ⊢; omega)
            _ rfl]
      exact List.take_append_drop _ _

lemma chunksOf_length_le (n : Nat) (l : List Nat) :
    ∀ c ∈ chunksOf n l, c.length ≤ n := by
  intro c hc
  unfold chunksOf at hc
  simp only [List.mem_map] at hc
  obtain ⟨i, _, rfl⟩ := hc
  exact List.length_take_le _ _

lemma chunksOf_map_length_250 (l : List Nat) (h : l.length = 250) :
    (chunksOf 100 l).map List.length = [100, 100, 50] := by
  have h1 : l ≠ [] := by
    intro hh; rw [hh] at h; simp at h
  have e1 := chunksOf_cons 99 l h1
  norm_num at e1
  have h2 : l.drop 100 ≠ [] := by
    intro hh
    have := congrArg List.length hh
    simp [List.length_drop, h] at this
  have e2 := chunksOf_cons 99 (l.drop 100) h2
  norm_num at e2
  have h3 : l.drop 200 ≠ [] := by
    intro hh
    have := congrArg List.length hh
    simp [List.length_drop, h] at this
  have e3 := chunksOf_cons 99 (l.drop 200) h3
  norm_num at e3
  have h4 : (l.drop 300 : List Nat) = [] := by
    apply List.eq_nil_of_length_eq_zero
    simp [List.length_drop, h]
  rw [e1, e2, e3, h4, chunksOf_nil]
  simp [List.length_take, List.length_drop, h]

lemma sendBlocks_correctAcks :
    ∀ (blocks : List (List Nat)) (s : HubState),
      (sendBlocks HubKind.other s blocks (correctAcks blocks)).result = .ok ()
    ∧ (sendBlocks HubKind.other s blocks (correctAcks blocks)).writes = blocks := by
  intro blocks
  induction blocks with
  | nil => intro s; exact ⟨rfl, rfl⟩
  | cons b bs ih =>
    intro s
    have hsb := send_block_reply_single HubKind.other s b (xor_bytes b 0)
    rw [if_pos rfl] at hsb
    have hok := (ih { s with checksum_ready := true, expected_checksum := -1 }).1
    have hwr := (ih { s with checksum_ready := true, expected_checksum := -1 }).2
    simp only [correctAcks] at hok hwr
    simp only [sendBlocks, correctAcks, List.map_cons, List.tail_cons, hsb]
    exact ⟨hok, by simp [hwr]⟩

/-- C4 (confirmed): the transfer part of `run` first sends one block that is
exactly the 4-byte little-endian payload length, then the payload in
consecutive chunks of at most 100 bytes whose concatenation is the payload,
in order; a 250-byte payload yields exactly 4 blocks of sizes 4, 100, 100
and 50, and with every block individually acknowledged by its XOR fold the
whole transfer succeeds, writing exactly those blocks. -/
theorem claim_C4 (mpy : List Nat) :
    (run_blocks mpy).head? = some (toLE4 mpy.length)
  ∧ (run_blocks mpy).tail.flatten = mpy
  ∧ (∀ c ∈ (run_blocks mpy).tail, c.length ≤ 100)
  ∧ (mpy.length < 2 ^ 32 → fromLE4 (toLE4 mpy.length) = mpy.length)
  ∧ (mpy.length = 250 → (run_blocks mpy).map List.length = [4, 100, 100, 50])
  ∧ (run_transfer HubKind.other initHub mpy (correctAcks (run_blocks mpy))).result
      = .ok ()
  ∧ (run_transfer HubKind.other initHub mpy (correctAcks (run_blocks mpy))).writes
      = run_blocks mpy := by
  refine ⟨rfl, ?_, ?_, ?_, ?_, ?_, ?_⟩
  · have hfl := chunksOf_flatten 99 mpy
    norm_num at hfl
    simpa [run_blocks] using hfl
  · intro c hc
    simp only [run_blocks, List.tail_cons] at hc
    exact chunksOf_length_le 100 mpy c hc
  · intro h32
    simp only [toLE4, fromLE4]
    omega
  · intro h250
    simp only [run_blocks, List.map_cons]
    rw [chunksOf_map_length_250 mpy h250]
    simp [toLE4]
  · simp only [run_transfer]
    exact (sendBlocks_correctAcks (run_blocks mpy) _).1
  · simp only [run_transfer]
    exact (sendBlocks_correctAcks (run_blocks mpy) _).2

/-- Witness for C4 at a concrete 250-byte payload. -/
theorem claim_C4_witness :
    (List.replicate 250 7).length = 250
  ∧ (run_blocks (List.replicate 250 7)).map List.length = [4, 100, 100, 50] :=
  ⟨List.length_replicate 250 7, (claim_C4 (List.replicate 250 7)).2.2.2.2.1 (List.length_replicate 250 7)⟩

/-- Witness for C7 (amended): a token-free line is routed as ordinary data. -/
theorem claim_C7_witness :
    line_handler initHub [104, 105] = (routesAsData initHub [104, 105], none) :=
  (claim_C7_amended initHub [104, 105]).mpr (by decide)

end Pybricks
